import Mathlib

/-!
# ILM Banner Generator — verification of the spec against the source

Shallow embedding of the compositing core of `banner_engine.py`,
`story_engine.py`, `story_themes.py` and `shared.py`.

Modelling conventions, used throughout:

* A raster image is a width, a height and a total pixel function
  (PIL images are always converted to RGBA before the code inspects
  pixels, so every pixel carries `r g b a` channels as naturals).
* Python string slicing/`lstrip` is modelled on the underlying
  character list of a Lean `String`.
* Python float arithmetic that only scales small integers is modelled
  by exact rational (`ℚ`) arithmetic; each such spot carries a doc
  comment.
* Font rasterisation and text measurement (`ImageDraw.textbbox`) are
  external resources; they enter the model as explicit function
  parameters (`tw`, `hw`, …) so that every statement quantifies over
  the possible font metrics.
* Network requests are modelled by an explicit outcome parameter: the
  nth request made by a call is the nth value of an oracle function,
  and the model additionally returns the number of requests issued.
-/

namespace ILM

/-- One RGBA pixel; channel values are naturals (0–255 in real data,
the model does not need the upper bound). -/
structure Pix where
  r : Nat
  g : Nat
  b : Nat
  a : Nat
  deriving Repr, DecidableEq

/-- A raster image: dimensions plus a total pixel function.
Out-of-bounds values are irrelevant: every scan in the model is
bounded by `width`/`height`. -/
structure Image where
  width : Nat
  height : Nat
  pix : Nat → Nat → Pix

/-- `Image.crop` models `PIL.Image.crop((l, t, r, b))` for in-bounds
boxes: the result is `(r-l) × (b-t)` and reads the source shifted by
`(l, t)`. -/
def Image.crop (img : Image) (l t r b : Nat) : Image :=
  ⟨r - l, b - t, fun x y => img.pix (l + x) (t + y)⟩

end ILM

namespace ILM

/-! ## `banner_engine.hex_to_rgb` -/

/-- Value of a hexadecimal digit character (`int(_, 16)` digit table). -/
def hexDigitVal (c : Char) : Nat :=
  if '0' ≤ c ∧ c ≤ '9' then c.toNat - '0'.toNat
  else if 'a' ≤ c ∧ c ≤ 'f' then c.toNat - 'a'.toNat + 10
  else if 'A' ≤ c ∧ c ≤ 'F' then c.toNat - 'A'.toNat + 10
  else 0

/-- Whether a character is a hexadecimal digit. -/
def isHexDigitChar (c : Char) : Bool :=
  ('0' ≤ c ∧ c ≤ '9') ∨ ('a' ≤ c ∧ c ≤ 'f') ∨ ('A' ≤ c ∧ c ≤ 'F')

/-- Python `int(s, 16)` on the character list `s`, modelled for
sign-free, prefix-free digit strings (the only shapes `hex_to_rgb`
ever produces as slices of a colour string): the empty string and any
string with a non-hex-digit character raise `ValueError` (here:
`none`). -/
def intBase16 (s : List Char) : Option Nat :=
  if s ≠ [] ∧ s.all isHexDigitChar then
    some (s.foldl (fun acc c => 16 * acc + hexDigitVal c) 0)
  else none

/-- `banner_engine.hex_to_rgb`:
`h = h.lstrip("#")`, then `int(h[i:i+2], 16) for i in (0, 2, 4)`.
Python slices `h[i:i+2]` are `take 2 (drop i)`; a failing `int` call
(`ValueError`) makes the whole call fail (`none`). -/
def hex_to_rgb (h : String) : Option (Nat × Nat × Nat) :=
  let d := h.data.dropWhile (· = '#')
  match intBase16 ((d.drop 0).take 2), intBase16 ((d.drop 2).take 2),
      intBase16 ((d.drop 4).take 2) with
  | some r, some g, some b => some (r, g, b)
  | _, _, _ => none

end ILM

namespace ILM

/-! ## `banner_engine.remove_white_bg` -/

/-- `banner_engine.remove_white_bg(img, threshold=230)`: pixels with
all three colour channels strictly above `threshold` get alpha 0;
everything else is untouched; dimensions are preserved. -/
def remove_white_bg (img : Image) (threshold : Nat := 230) : Image :=
  ⟨img.width, img.height, fun x y =>
    let p := img.pix x y
    if p.r > threshold ∧ p.g > threshold ∧ p.b > threshold then
      ⟨p.r, p.g, p.b, 0⟩
    else p⟩

/-! ## `banner_engine.trim_transparent` -/

/-- The per-pixel content mask of `trim_transparent`:
`alpha > 10` and not (`r > 240 and g > 240 and b > 240`). -/
def contentAt (img : Image) (x y : Nat) : Bool :=
  let p := img.pix x y
  p.a > 10 ∧ ¬(p.r > 240 ∧ p.g > 240 ∧ p.b > 240)

/-- Least `k < n` with `p k`, i.e. `np.where(mask)[0][0]` on the
boolean vector `fun k => p k` of length `n`. -/
def findFirst (p : Nat → Bool) : Nat → Option Nat
  | 0 => none
  | n + 1 =>
    match findFirst p n with
    | some m => some m
    | none => if p n then some n else none

/-- Greatest `k < n` with `p k`, i.e. `np.where(mask)[0][-1]`. -/
def findLast (p : Nat → Bool) : Nat → Option Nat
  | 0 => none
  | n + 1 => if p n then some n else findLast p n

/-- Row `y` of `img` contains a content pixel (`rows = np.any(content,
axis=1)`). -/
def rowHasContent (img : Image) (y : Nat) : Bool :=
  (List.range img.width).any fun x => contentAt img x y

/-- Column `x` of `img` contains a content pixel (`cols =
np.any(content, axis=0)`). -/
def colHasContent (img : Image) (x : Nat) : Bool :=
  (List.range img.height).any fun y => contentAt img x y

/-- `banner_engine.trim_transparent`: crop to the bounding box of the
content mask; if the mask is empty (`not content.any()`) return the
image unchanged. (The initial `convert("RGBA")` is the identity in
this model, where every image is RGBA.) -/
def trim_transparent (img : Image) : Image :=
  match findFirst (rowHasContent img) img.height,
      findLast (rowHasContent img) img.height,
      findFirst (colHasContent img) img.width,
      findLast (colHasContent img) img.width with
  | some rmin, some rmax, some cmin, some cmax =>
    img.crop cmin rmin (cmax + 1) (rmax + 1)
  | _, _, _, _ => img

end ILM

namespace ILM

/-! ## `banner_engine.fit_image` -/

/-- Scale factor of `fit_image`: `min(max_w / img.width, max_h /
img.height)`. Python float division is modelled as exact rational
division. -/
def fitRatio (w h maxW maxH : Nat) : ℚ :=
  min ((maxW : ℚ) / w) ((maxH : ℚ) / h)

/-- Output width of `fit_image`: `max(1, int(img.width * ratio))`;
`int` truncation on a non-negative float is the floor. -/
def fitW (w h maxW maxH : Nat) : Nat :=
  max 1 (⌊(w : ℚ) * fitRatio w h maxW maxH⌋).toNat

/-- Output height of `fit_image`: `max(1, int(img.height * ratio))`. -/
def fitH (w h maxW maxH : Nat) : Nat :=
  max 1 (⌊(h : ℚ) * fitRatio w h maxW maxH⌋).toNat

/-- `banner_engine.fit_image(img, max_w, max_h)`: resize to the
computed dimensions. The LANCZOS resampling kernel is an external
resource; it enters the model as the pixel-producing parameter
`resample` (dimensions are what the source computes). -/
def fit_image (resample : Image → Nat → Nat → Nat → Nat → Pix)
    (img : Image) (maxW maxH : Nat) : Image :=
  let nw := fitW img.width img.height maxW maxH
  let nh := fitH img.width img.height maxW maxH
  ⟨nw, nh, resample img nw nh⟩

/-! ## Headline shrink-to-fit loop (`_build_headline_banner`) -/

/-- The `while hl_size > 8` loop of `_build_headline_banner`: starting
at `size`, break as soon as the measured headline width at the current
size (`fits`) is within the zone width, else decrement; the loop exits
at 8 without a final fit test. `fits s` stands for
`textbbox(headline, font=truetype(FONT_BOLD, s))[2] <= hl_zone_w`,
with the font metric left abstract. -/
def shrinkLoop (fits : Nat → Bool) : Nat → Nat
  | 0 => 0
  | n + 1 =>
    if n + 1 > 8 then
      (if fits (n + 1) then n + 1 else shrinkLoop fits n)
    else n + 1

/-- The headline start size `max(int(h * 0.40), 16)`; `int(h * 0.40)`
is modelled as `h * 40 / 100` (exact for the banner height 90 used by
the program: `36`). -/
def hlStartSize (h : Nat) : Nat :=
  max (h * 40 / 100) 16

/-- The headline font size computed by `_build_headline_banner` for a
banner of height `h`, given the abstract fit predicate. -/
def headlineSize (fits : Nat → Bool) (h : Nat) : Nat :=
  shrinkLoop fits (hlStartSize h)

end ILM

namespace ILM

/-! ## `banner_engine.generate_all` -/

/-- `banner_engine` banner configuration (the engine reads these
fields of the config dict). -/
structure BannerCfg where
  brand_name : String
  brand_abbrev : String
  logo_image : Image
  product_image : Image
  headline_eng : String
  headline_esp : String
  bg_color_hex : String

/-- `banner_engine.LARGE_SIZES`: `(width, height, show_headline)`. -/
def LARGE_SIZES : List (Nat × Nat × Bool) :=
  [(1300, 90, true), (1200, 90, true), (640, 90, false)]

/-- `banner_engine.PLACEMENT`. -/
def PLACEMENT : String := "ILM"

/-- Banner filename `f"{w}x{h}_{lang}_{PLACEMENT}_{brand_abbrev}.jpg"`. -/
def bannerName (w h : Nat) (lang abb : String) : String :=
  toString w ++ "x" ++ toString h ++ "_" ++ lang ++ "_" ++ PLACEMENT
    ++ "_" ++ abb ++ ".jpg"

/-- `banner_engine._build_headline_banner(w, h, cfg, lang)`. The
banner starts as `Image.new("RGB", (w, h), bg)` and every subsequent
paste/draw keeps the dimensions, so the result is a `w × h` image; the
composited pixel content depends on font rasterisation and is supplied
by the `renderH` parameter. -/
def build_headline_banner (renderH : Nat → Nat → BannerCfg → String → Nat → Nat → Pix)
    (w h : Nat) (cfg : BannerCfg) (lang : String) : Image :=
  ⟨w, h, renderH w h cfg lang⟩

/-- `banner_engine._build_compact_banner(w, h, cfg, lang)`: likewise a
`w × h` image with externally-rendered content. -/
def build_compact_banner (renderC : Nat → Nat → BannerCfg → String → Nat → Nat → Pix)
    (w h : Nat) (cfg : BannerCfg) (lang : String) : Image :=
  ⟨w, h, renderC w h cfg lang⟩

/-- `PIL.Image.resize((w, h))`: exact target dimensions, resampled
content. -/
def imResize (resample : Image → Nat → Nat → Nat → Nat → Pix)
    (img : Image) (w h : Nat) : Image :=
  ⟨w, h, resample img w h⟩

/-- `banner_engine.generate_all(cfg)`: for each language
`("ENG", "ESP")` and each entry of `LARGE_SIZES`, build the banner
(headline layout iff `show_headline`), emit the full-size entry, then
the half-size entry at `(w // 2, h // 2)` produced by resizing the
full-size raster. JPEG encoding of each raster is dimension- and
name-preserving, so entries carry the raster itself. -/
def generate_all
    (renderH renderC : Nat → Nat → BannerCfg → String → Nat → Nat → Pix)
    (resample : Image → Nat → Nat → Nat → Nat → Pix)
    (cfg : BannerCfg) : List (String × Image) :=
  ["ENG", "ESP"].flatMap fun lang =>
    LARGE_SIZES.flatMap fun s =>
      let w := s.1
      let h := s.2.1
      let banner :=
        if s.2.2 then build_headline_banner renderH w h cfg lang
        else build_compact_banner renderC w h cfg lang
      let hw := w / 2
      let hh := h / 2
      [(bannerName w h lang cfg.brand_abbrev, banner),
       (bannerName hw hh lang cfg.brand_abbrev, imResize resample banner hw hh)]

end ILM

namespace ILM

/-! ## `story_engine` data model -/

/-- A product dict as consumed by `story_engine` (`asin`, `brand`,
`product_name`, `copy` are read with `.get`, so they are optional;
`image` is read with `[...]` and must be present). -/
structure Product where
  asin : Option String
  brand : Option String
  product_name : Option String
  copy : Option String
  image : Image

/-- Python truthiness of `product_data.get("copy")`: present and
non-empty. -/
def copyTruthy (p : Product) : Bool :=
  match p.copy with
  | some s => s ≠ ""
  | none => false

/-- `story_engine._prepare_product`: convert to RGBA (identity here),
trim the transparent border, fit inside `max_w × max_h`. -/
def prepare_product (resample : Image → Nat → Nat → Nat → Nat → Pix)
    (img : Image) (maxW maxH : Nat) : Image :=
  fit_image resample (trim_transparent img) maxW maxH

/-- One drawing/compositing operation issued while building a story
frame. Coordinates are integers (Python ints may go negative when
centring wide text); colours are recorded as the palette hex strings
they are converted from (the conversion itself is `hex_to_rgb`,
treated separately). -/
inductive DrawOp where
  | ellipse (x0 y0 x1 y1 : Int) (fill : String)
  | pasteProduct (img : Image) (x y : Int)
  | handwritten (text : String) (x y : Int) (color : String) (size : Nat)
  | textBlock (text : String) (x y : Int) (size : Nat) (color : String)
      (maxWidth : Option Nat) (align : String)

/-- `story_engine._beauty_individual(product_data)`, recorded as its
ordered list of drawing operations on the blank
`PALETTE["@AmazonBeauty"]["bg_individual"]` canvas. `hw text size`
stands for the measured handwritten text width returned by
`_draw_handwritten` (a font metric, left abstract); note the source
really issues the measuring `_draw_handwritten` call at `(0, 0)`
before the centred one. Python floor division `//` is `Int.fdiv`. -/
def beauty_individual (hw : String → Nat → Nat)
    (resample : Image → Nat → Nat → Nat → Nat → Pix)
    (p : Product) : List DrawOp :=
  -- circle_r = 380, circle_cx = W // 2 = 540, circle_cy = 820
  let prodImg := prepare_product resample p.image 580 700
  let px : Int := Int.fdiv (1080 - (prodImg.width : Int)) 2
  let py : Int := 820 - Int.fdiv (prodImg.height : Int) 2 - 40
  [DrawOp.ellipse (540 - 380) (820 - 380) (540 + 380) (820 + 380) "#C8EDDA",
   DrawOp.pasteProduct prodImg px py]
  ++ (if copyTruthy p then
        let annotation : String := ⟨((p.copy.getD "").data.take 30)⟩
        let aw := hw annotation 24
        let ax : Int := Int.fdiv (1080 - (aw : Int)) 2
        [DrawOp.handwritten annotation 0 0 "#4A8B6F" 24,
         DrawOp.handwritten annotation ax (py - 50) "#4A8B6F" 24]
      else [])
  -- copy_y = circle_cy + circle_r + 50 = 1250
  ++ (if copyTruthy p then
        [DrawOp.textBlock (p.copy.getD "") 80 1250 28 "#2C2C2C"
          (some (1080 - 160)) "center"]
      else [])

/-- The handwritten annotation strings drawn by a frame, in order. -/
def annotationTexts (ops : List DrawOp) : List String :=
  ops.filterMap fun op =>
    match op with
    | DrawOp.handwritten t _ _ _ _ => some t
    | _ => none

end ILM

namespace ILM

/-! ## `story_engine.generate_franchise_frames` / `generate_all_franchises` -/

/-- The keys of `story_engine.CHANNEL_BUILDERS`, in definition
order. -/
def CHANNEL_KEYS : List String :=
  ["@AmazonHome", "@AmazonBeauty", "@AmazonFashion", "@Amazon", "@Amazon.ca"]

/-- `safe_channel = channel.replace("@", "").replace(".", "_")`. -/
def safeChannel (c : String) : String :=
  ⟨(c.data.filter (· ≠ '@')).map fun ch => if ch = '.' then '_' else ch⟩

/-- Python `f"{n:02d}"` for the non-negative frame numbers used here. -/
def pad2 (n : Nat) : String :=
  if n < 10 then "0" ++ toString n else toString n

/-- `prod.get('asin', f'Product_{i+1}')`. -/
def asinOr (p : Product) (i : Nat) : String :=
  p.asin.getD ("Product_" ++ toString i)

/-- A rendered story frame, identified by the builder invocation that
produced it: which channel's builder ran, on which data, with which
language and gradient index. (Builders of the three non-gradient
channels take neither `lang` nor `gradient_idx`; those frames carry
the defaults `"en"`/`0`.) The raster bytes are a function of exactly
these arguments plus the process-wide month/fonts. -/
inductive Frame where
  | collage (channel : String) (products : List Product) (theme : String)
      (lang : String) (gradientIdx : Nat)
  | individual (channel : String) (product : Product) (frameNum : Nat)
      (lang : String) (gradientIdx : Nat)

/-- `story_engine.generate_franchise_frames(channel, products,
theme_name)`. An unknown channel raises `KeyError` at
`CHANNEL_BUILDERS[channel]` (modelled as `none`). Otherwise: one
collage frame, one individual frame per product in input order
(gradient index `(0 + i) % 6` for the `@Amazon` family), the same
collage frame again, and — for `@Amazon.ca` only — a second,
French-localised set of the same shape under the `_FR` folder. -/
def generate_franchise_frames (channel : String) (products : List Product)
    (theme : String := "Just Dropped") : Option (List (String × Frame)) :=
  if channel ∈ CHANNEL_KEYS then
    let safe := safeChannel channel
    let collage_en := Frame.collage channel products theme "en" 0
    let en :=
      [(safe ++ "/Frame_01_Collage.png", collage_en)]
      ++ (products.enum.map fun ip =>
          (safe ++ "/Frame_" ++ pad2 (ip.1 + 2) ++ "_" ++ asinOr ip.2 (ip.1 + 1)
             ++ ".png",
           Frame.individual channel ip.2 (ip.1 + 1) "en"
             (if channel = "@Amazon" ∨ channel = "@Amazon.ca" then ip.1 % 6 else 0)))
      ++ [(safe ++ "/Frame_" ++ pad2 (products.length + 2) ++ "_Collage.png",
           collage_en)]
    let fr :=
      if channel = "@Amazon.ca" then
        let collage_fr := Frame.collage channel products theme "fr" 0
        [(safe ++ "_FR/Frame_01_Collage.png", collage_fr)]
        ++ (products.enum.map fun ip =>
            (safe ++ "_FR/Frame_" ++ pad2 (ip.1 + 2) ++ "_"
               ++ asinOr ip.2 (ip.1 + 1) ++ ".png",
             Frame.individual channel ip.2 (ip.1 + 1) "fr" (ip.1 % 6)))
        ++ [(safe ++ "_FR/Frame_" ++ pad2 (products.length + 2) ++ "_Collage.png",
             collage_fr)]
      else []
    some (en ++ fr)
  else none

/-- `story_engine.generate_all_franchises(franchise_data,
theme_names)`: iterate the franchise dict in order (dicts iterate in
insertion order, so the dict is an association list here), silently
`continue` past any channel not in `CHANNEL_BUILDERS`, and concatenate
the per-channel frame lists. The membership test precedes the call, so
the `Option` of `generate_franchise_frames` is always `some` here
(`getD []`). -/
def generate_all_franchises (fd : List (String × List Product))
    (themeNames : List (String × String) := []) : List (String × Frame) :=
  fd.flatMap fun cp =>
    if cp.1 ∈ CHANNEL_KEYS then
      (generate_franchise_frames cp.1 cp.2
        ((themeNames.lookup cp.1).getD "Just Dropped")).getD []
    else []

end ILM

namespace ILM

/-! ## Network search calls (`story_themes._brave_web_search`,
`shared.search_images`) -/

/-- The outcome of one HTTP request: a decoded payload, an HTTP 429
rate-limit error (raised by `raise_for_status`), or any other
failure (timeout, connection error, other status, bad JSON, …). -/
inductive ReqOutcome (α : Type) where
  | ok (val : α)
  | rateLimited
  | failure

/-- A raw Brave web-search result as read from the response JSON; all
fields are `.get` with default `""`. -/
structure RawWebResult where
  title : Option String
  description : Option String
  url : Option String

/-- A mapped web-search result (`{title, description, url}`). -/
structure WebResult where
  title : String
  description : String
  url : String
  deriving DecidableEq

/-- `story_themes._brave_web_search(query, count)`: with no API key,
return `[]` without any request; otherwise make exactly one request
(`requests.get` inside the single `try`), map its results on success,
and return `[]` on any exception — the `except Exception` clause does
not distinguish a rate-limit from any other failure, and the function
contains no loop or sleep. `request n` is the outcome the network
would give to the (n+1)-th request of this call; the second component
of the result counts the requests actually issued. -/
def brave_web_search (hasKey : Bool)
    (request : Nat → ReqOutcome (List RawWebResult)) :
    List WebResult × Nat :=
  if !hasKey then ([], 0)
  else
    match request 0 with
    | ReqOutcome.ok rs =>
      (rs.map fun r => ⟨r.title.getD "", r.description.getD "", r.url.getD ""⟩, 1)
    | _ => ([], 1)

/-- A raw Brave image-search result; `image` comes from
`r.get("properties", {}).get("url", r.get("url", ""))` and
`thumbnail` from `r.get("thumbnail", {}).get("src", "")`. -/
structure RawImageResult where
  title : Option String
  propertiesUrl : Option String
  url : Option String
  thumbnailSrc : Option String

/-- A mapped image-search entry (`{title, image, thumbnail}`). DDG
entries are passed through `search_images` unchanged; they are
modelled at this same entry type. -/
structure ImageEntry where
  title : String
  image : String
  thumbnail : String
  deriving DecidableEq

/-- `shared._search_brave`'s JSON-to-entry mapping. -/
def mapBraveImage (r : RawImageResult) : ImageEntry :=
  ⟨r.title.getD "", r.propertiesUrl.getD (r.url.getD ""), r.thumbnailSrc.getD ""⟩

/-- `shared.search_images(query, max_results)`: if an API key is set,
make exactly one Brave request and return its mapped results on
success; on any Brave exception (or with no key) make exactly one
DuckDuckGo request and return its results on success; if that also
fails, return `[]`. No retry, no sleep anywhere; the Nat component
counts the requests issued (Brave plus DDG). -/
def search_images (hasKey : Bool)
    (braveReq : Nat → ReqOutcome (List RawImageResult))
    (ddgReq : Nat → ReqOutcome (List ImageEntry)) :
    List ImageEntry × Nat :=
  match hasKey, braveReq 0 with
  | true, ReqOutcome.ok rs => (rs.map mapBraveImage, 1)
  | true, _ =>
    (match ddgReq 0 with
     | ReqOutcome.ok ds => (ds, 2)
     | _ => ([], 2))
  | false, _ =>
    (match ddgReq 0 with
     | ReqOutcome.ok ds => (ds, 1)
     | _ => ([], 1))

end ILM

namespace ILM

/-! ## Shared concrete test data for witnesses -/

/-- A 1×1 fully transparent image. -/
def tinyImage : Image := ⟨1, 1, fun _ _ => ⟨0, 0, 0, 0⟩⟩

/-- A trivial resampling kernel (kernels only affect pixel content,
never the dimension claims). -/
def zeroResample : Image → Nat → Nat → Nat → Nat → Pix :=
  fun _ _ _ _ _ => ⟨0, 0, 0, 0⟩

end ILM

namespace ILM

/-! ## C9 — `remove_white_bg` frame effect -/

/-- C9: `remove_white_bg` preserves the dimensions and the R, G, B
channels of every pixel, and sets alpha to 0 exactly at the pixels
whose three colour channels all exceed the threshold, leaving every
other alpha unchanged. -/
theorem remove_white_bg_frame_effect (img : Image) (t x y : Nat) :
    (remove_white_bg img t).width = img.width
    ∧ (remove_white_bg img t).height = img.height
    ∧ ((remove_white_bg img t).pix x y).r = (img.pix x y).r
    ∧ ((remove_white_bg img t).pix x y).g = (img.pix x y).g
    ∧ ((remove_white_bg img t).pix x y).b = (img.pix x y).b
    ∧ ((remove_white_bg img t).pix x y).a =
        (if (img.pix x y).r > t ∧ (img.pix x y).g > t ∧ (img.pix x y).b > t
         then 0 else (img.pix x y).a) := by
  refine ⟨rfl, rfl, ?_, ?_, ?_, ?_⟩ <;>
    · simp only [remove_white_bg]
      split <;> simp

end ILM

namespace ILM

/-! ## C3 — `hex_to_rgb` -/

lemma hexDigitVal_le_15 (c : Char) : hexDigitVal c ≤ 15 := by
  unfold hexDigitVal
  have v0 : ('0' : Char).val.toBitVec.toNat = 48 := by decide
  have v9 : ('9' : Char).val.toBitVec.toNat = 57 := by decide
  have va : ('a' : Char).val.toBitVec.toNat = 97 := by decide
  have vf : ('f' : Char).val.toBitVec.toNat = 102 := by decide
  have vA : ('A' : Char).val.toBitVec.toNat = 65 := by decide
  have vF : ('F' : Char).val.toBitVec.toNat = 70 := by decide
  have key : ∀ a b : Char, (a ≤ b) = (a.val.toBitVec.toNat ≤ b.val.toBitVec.toNat) := by
    intro a b
    rw [Char.le_def, UInt32.le_def, BitVec.le_def]
  simp only [key, Char.toNat, UInt32.toNat, v0, v9, va, vf, vA, vF]
  split <;> try split <;> try split
  all_goals omega

lemma intBase16_pair (c1 c2 : Char)
    (h1 : isHexDigitChar c1 = true) (h2 : isHexDigitChar c2 = true) :
    intBase16 [c1, c2] = some (16 * hexDigitVal c1 + hexDigitVal c2)
      ∧ 16 * hexDigitVal c1 + hexDigitVal c2 ≤ 255 := by
  constructor
  · simp [intBase16, h1, h2]
  · have b1 := hexDigitVal_le_15 c1
    have b2 := hexDigitVal_le_15 c2
    omega

lemma hex_ne_hash (c : Char) (h : isHexDigitChar c = true) : ¬(c = '#') := by
  intro he
  subst he
  exact absurd h (by decide)

lemma dropWhile_hash_append (pre rest : List Char) (hpre : ∀ c ∈ pre, c = '#') :
    (pre ++ rest).dropWhile (· = '#') = rest.dropWhile (· = '#') := by
  induction pre with
  | nil => rfl
  | cons a l ih =>
    have ha : a = '#' := hpre a (by simp)
    subst ha
    simp only [List.cons_append, List.dropWhile_cons]
    rw [if_pos (by simp)]
    exact ih fun c hc => hpre c (by simp [hc])

/-- C3 (amended): `hex_to_rgb` performs no validation. For every
input consisting of a (possibly empty) run of `'#'` followed by six
hex digits and then arbitrary extra characters, it succeeds with each
component between 0 and 255, and the extra characters are silently
ignored — the result is that of the six-digit prefix alone (silent
truncation, never a `MalformedColorError`). -/
theorem hex_to_rgb_spec (pre s extra : List Char)
    (hpre : ∀ c ∈ pre, c = '#') (hlen : s.length = 6)
    (hhex : s.all isHexDigitChar = true) :
    ∃ r g b, hex_to_rgb ⟨pre ++ s ++ extra⟩ = some (r, g, b)
      ∧ r ≤ 255 ∧ g ≤ 255 ∧ b ≤ 255
      ∧ hex_to_rgb ⟨pre ++ s ++ extra⟩ = hex_to_rgb ⟨s⟩ := by
  match s, hlen with
  | [c0, c1, c2, c3, c4, c5], _ =>
    simp only [List.all_cons, List.all_nil, Bool.and_eq_true, Bool.and_true,
      and_true] at hhex
    obtain ⟨h0, h1, h2, h3, h4, h5⟩ := hhex
    have hd1 : ((pre ++ [c0, c1, c2, c3, c4, c5] ++ extra) : List Char).dropWhile
          (· = '#') = [c0, c1, c2, c3, c4, c5] ++ extra := by
      rw [List.append_assoc, dropWhile_hash_append _ _ hpre]
      simp [List.dropWhile_cons, hex_ne_hash c0 h0]
    have hd2 : (([c0, c1, c2, c3, c4, c5]) : List Char).dropWhile (· = '#')
          = [c0, c1, c2, c3, c4, c5] := by
      simp [List.dropWhile_cons, hex_ne_hash c0 h0]
    obtain ⟨e0, b0⟩ := intBase16_pair c0 c1 h0 h1
    obtain ⟨e1, b1⟩ := intBase16_pair c2 c3 h2 h3
    obtain ⟨e2, b2⟩ := intBase16_pair c4 c5 h4 h5
    refine ⟨16 * hexDigitVal c0 + hexDigitVal c1,
            16 * hexDigitVal c2 + hexDigitVal c3,
            16 * hexDigitVal c4 + hexDigitVal c5, ?_, b0, b1, b2, ?_⟩
    · simp only [hex_to_rgb, hd1]
      simp [e0, e1, e2]
    · simp only [hex_to_rgb, hd1, hd2]
      simp [e0, e1, e2]

/-- C3 witness: the valid colour `"#d9f69e"` with trailing junk
`"ff"` still parses, within 0–255, to the value of `"d9f69e"`. -/
theorem hex_to_rgb_spec_witness :
    (∀ c ∈ ['#'], c = '#') ∧ ("d9f69e".data.length = 6)
      ∧ ("d9f69e".data.all isHexDigitChar = true)
      ∧ (∃ r g b,
          hex_to_rgb ⟨['#'] ++ "d9f69e".data ++ ['f', 'f']⟩ = some (r, g, b)
            ∧ r ≤ 255 ∧ g ≤ 255 ∧ b ≤ 255
            ∧ hex_to_rgb ⟨['#'] ++ "d9f69e".data ++ ['f', 'f']⟩
                = hex_to_rgb ⟨"d9f69e".data⟩) :=
  ⟨by decide, by decide, by decide,
   hex_to_rgb_spec ['#'] "d9f69e".data ['f', 'f'] (by decide) (by decide)
     (by decide)⟩

/-- C3 counterexample: the malformed eight-hex-digit input
`"#aabbccdd"` does not fail — `hex_to_rgb` silently truncates it to
`(0xaa, 0xbb, 0xcc)`. -/
theorem hex_to_rgb_counterexample :
    hex_to_rgb "#aabbccdd" = some (170, 187, 204) := by decide

end ILM

namespace ILM

/-! ## C4 — network search calls: no retry, empty list on failure -/

/-- C4 (amended): neither search call retries. `_brave_web_search`
issues exactly one request when an API key is set (none otherwise)
and maps any failure — rate-limit included — to `[]`; `search_images`
issues at most two requests (one Brave, one DuckDuckGo fallback),
returns `[]` only when every backend it tried failed, and on a Brave
rate-limit failure falls straight back to DuckDuckGo with no second
Brave request. No call ever sleeps or raises to its caller. -/
theorem network_search_no_retry (hasKey : Bool)
    (req : Nat → ReqOutcome (List RawWebResult))
    (b : Nat → ReqOutcome (List RawImageResult))
    (d : Nat → ReqOutcome (List ImageEntry)) :
    (brave_web_search hasKey req).2 = (if hasKey then 1 else 0)
    ∧ (req 0 = ReqOutcome.rateLimited ∨ req 0 = ReqOutcome.failure →
        (brave_web_search hasKey req).1 = [])
    ∧ (search_images hasKey b d).2 ≤ 2
    ∧ ((∀ rs, b 0 ≠ ReqOutcome.ok rs) → (∀ ds, d 0 ≠ ReqOutcome.ok ds) →
        (search_images hasKey b d).1 = [])
    ∧ (∀ ds, hasKey = true → b 0 = ReqOutcome.rateLimited →
        d 0 = ReqOutcome.ok ds → (search_images hasKey b d).1 = ds) := by
  refine ⟨?_, ?_, ?_, ?_, ?_⟩
  · cases hasKey <;> rcases hreq : req 0 <;> simp [brave_web_search, hreq]
  · intro h
    rcases h with h | h <;> cases hasKey <;> simp [brave_web_search, h]
  · cases hasKey <;> rcases hb : b 0 <;> rcases hd : d 0 <;>
      simp [search_images, hb, hd]
  · intro hb hd
    cases hasKey <;> rcases hb0 : b 0 <;> rcases hd0 : d 0 <;>
      simp [search_images, hb0, hd0] <;>
      first
        | exact absurd hb0 (hb _)
        | exact absurd hd0 (hd _)
  · intro ds hk hb0 hd0
    subst hk
    simp [search_images, hb0, hd0]

/-- C4 witness: with an API key and a persistently failing network
(Brave rate-limited, DuckDuckGo failing), `_brave_web_search` issues
exactly one request and returns `[]`; `search_images` issues at most
two and returns `[]`. -/
theorem network_search_no_retry_witness :
    (brave_web_search true (fun _ => ReqOutcome.rateLimited)).2 = 1
    ∧ (brave_web_search true (fun _ => ReqOutcome.rateLimited)).1 = []
    ∧ (search_images true (fun _ => ReqOutcome.rateLimited)
        (fun _ => ReqOutcome.failure)).2 ≤ 2
    ∧ (search_images true (fun _ => ReqOutcome.rateLimited)
        (fun _ => ReqOutcome.failure)).1 = [] := by
  have h := network_search_no_retry true (fun _ => ReqOutcome.rateLimited)
    (fun _ => ReqOutcome.rateLimited) (fun _ => ReqOutcome.failure)
  exact ⟨h.1, h.2.1 (Or.inl rfl), h.2.2.1,
    h.2.2.2.1 (fun rs hrs => by cases hrs) (fun ds hds => by cases hds)⟩

/-- C4 counterexample: on a rate-limited request with an API key
present, `_brave_web_search` issues exactly one request — there is no
retry (the claimed 2-retry/backoff schedule would issue at least two
requests when the rate-limit persists). -/
theorem network_search_counterexample :
    (brave_web_search true (fun _ => ReqOutcome.rateLimited)).2 = 1
    ∧ ¬ 2 ≤ (brave_web_search true (fun _ => ReqOutcome.rateLimited)).2 := by
  constructor
  · rfl
  · intro h
    simp [brave_web_search] at h

end ILM

namespace ILM

/-! ## C7 — `fit_image` bounds -/

lemma fitRatio_pos {w h maxW maxH : Nat} (hw : 0 < w) (hh : 0 < h)
    (hW : 1 ≤ maxW) (hH : 1 ≤ maxH) : 0 < fitRatio w h maxW maxH := by
  unfold fitRatio
  apply lt_min
  · exact div_pos (by exact_mod_cast hW) (by exact_mod_cast hw)
  · exact div_pos (by exact_mod_cast hH) (by exact_mod_cast hh)

lemma mul_fitRatio_le {w h maxW maxH : Nat} (hw : 0 < w) :
    (w : ℚ) * fitRatio w h maxW maxH ≤ maxW := by
  have hw0 : (w : ℚ) ≠ 0 := by exact_mod_cast hw.ne'
  calc (w : ℚ) * fitRatio w h maxW maxH
      ≤ (w : ℚ) * ((maxW : ℚ) / w) := by
        apply mul_le_mul_of_nonneg_left (min_le_left _ _)
        exact_mod_cast Nat.zero_le w
    _ = maxW := by rw [mul_comm, div_mul_cancel₀ _ hw0]

lemma fitW_spec {w h maxW maxH : Nat} (hw : 0 < w) (hh : 0 < h)
    (hW : 1 ≤ maxW) (hH : 1 ≤ maxH) :
    fitW w h maxW maxH ≤ maxW ∧ 0 < fitW w h maxW maxH
      ∧ |((fitW w h maxW maxH : ℚ)) - w * fitRatio w h maxW maxH| < 1 := by
  set x : ℚ := (w : ℚ) * fitRatio w h maxW maxH with hx
  have hxpos : 0 < x := by
    exact mul_pos (by exact_mod_cast hw) (fitRatio_pos hw hh hW hH)
  have hxle : x ≤ maxW := mul_fitRatio_le hw
  have hfl0 : 0 ≤ ⌊x⌋ := Int.floor_nonneg.mpr hxpos.le
  have hfl_le : ⌊x⌋ ≤ (maxW : Int) := by
    have := Int.floor_le_floor hxle
    rwa [Int.floor_natCast] at this
  refine ⟨?_, ?_, ?_⟩
  · unfold fitW
    rw [← hx]
    apply max_le hW
    omega
  · exact lt_of_lt_of_le Nat.one_pos (le_max_left _ _)
  · unfold fitW
    rw [← hx]
    rcases le_or_lt 1 (⌊x⌋.toNat) with h1 | h1
    · rw [max_eq_right h1]
      have hcast : ((⌊x⌋.toNat : Nat) : ℚ) = (⌊x⌋ : ℚ) := by
        exact_mod_cast Int.toNat_of_nonneg hfl0
      rw [abs_sub_lt_iff, hcast]
      constructor
      · have := Int.floor_le x
        linarith
      · have := Int.lt_floor_add_one x
        linarith
    · have hz : ⌊x⌋.toNat = 0 := by omega
      have hfl : ⌊x⌋ = 0 := by omega
      have hxlt : x < 1 := by
        have := Int.lt_floor_add_one x
        rw [hfl] at this
        simpa using this
      rw [hz, max_eq_left (by omega)]
      rw [abs_sub_lt_iff]
      constructor
      · push_cast
        linarith
      · push_cast
        linarith

lemma fitH_eq_fitW_swap (w h maxW maxH : Nat) :
    fitH w h maxW maxH = fitW h w maxH maxW := by
  unfold fitH fitW fitRatio
  rw [min_comm]

/-- C7: for every image with positive dimensions and bounds `maxW,
maxH ≥ 1`, `fit_image` returns an image with `width ≤ maxW`,
`height ≤ maxH`, neither dimension zero, and each dimension within 1px
of the exact uniform scaling `dim * min(maxW/w, maxH/h)` (aspect ratio
preserved within 1px rounding). -/
theorem fit_image_spec (resample : Image → Nat → Nat → Nat → Nat → Pix)
    (img : Image) (maxW maxH : Nat)
    (hw : 0 < img.width) (hh : 0 < img.height)
    (hW : 1 ≤ maxW) (hH : 1 ≤ maxH) :
    (fit_image resample img maxW maxH).width ≤ maxW
    ∧ (fit_image resample img maxW maxH).height ≤ maxH
    ∧ 0 < (fit_image resample img maxW maxH).width
    ∧ 0 < (fit_image resample img maxW maxH).height
    ∧ |((fit_image resample img maxW maxH).width : ℚ)
        - img.width * fitRatio img.width img.height maxW maxH| < 1
    ∧ |((fit_image resample img maxW maxH).height : ℚ)
        - img.height * fitRatio img.width img.height maxW maxH| < 1 := by
  obtain ⟨hle, hpos, hasp⟩ := fitW_spec hw hh hW hH (h := img.height)
  obtain ⟨hle', hpos', hasp'⟩ := fitW_spec hh hw hH hW (h := img.width)
  have hsw := fitH_eq_fitW_swap img.width img.height maxW maxH
  have hrw : fitRatio img.height img.width maxH maxW
      = fitRatio img.width img.height maxW maxH := by
    unfold fitRatio
    rw [min_comm]
  refine ⟨hle, ?_, hpos, ?_, hasp, ?_⟩
  · show fitH img.width img.height maxW maxH ≤ maxH
    rw [hsw]
    exact hle'
  · show 0 < fitH img.width img.height maxW maxH
    rw [hsw]
    exact hpos'
  · show |((fitH img.width img.height maxW maxH : ℚ))
        - img.height * fitRatio img.width img.height maxW maxH| < 1
    rw [hsw, ← hrw]
    exact hasp'

/-- A 4×2 transparent image for the C7 witness. -/
def img4x2 : Image := ⟨4, 2, fun _ _ => ⟨0, 0, 0, 0⟩⟩

/-- C7 witness: fitting a 4×2 image into a 2×2 box. -/
theorem fit_image_spec_witness :
    0 < img4x2.width ∧ 0 < img4x2.height ∧ (1 ≤ 2) ∧ (1 ≤ 2)
    ∧ ((fit_image zeroResample img4x2 2 2).width ≤ 2
      ∧ (fit_image zeroResample img4x2 2 2).height ≤ 2
      ∧ 0 < (fit_image zeroResample img4x2 2 2).width
      ∧ 0 < (fit_image zeroResample img4x2 2 2).height
      ∧ |((fit_image zeroResample img4x2 2 2).width : ℚ)
          - img4x2.width * fitRatio img4x2.width img4x2.height 2 2| < 1
      ∧ |((fit_image zeroResample img4x2 2 2).height : ℚ)
          - img4x2.height * fitRatio img4x2.width img4x2.height 2 2| < 1) :=
  ⟨by decide, by decide, by decide, by decide,
   fit_image_spec zeroResample img4x2 2 2 (by decide) (by decide)
     (by decide) (by decide)⟩

end ILM

namespace ILM

/-! ## C8 — headline shrink-to-fit -/

lemma shrinkLoop_le (fits : Nat → Bool) (n : Nat) : shrinkLoop fits n ≤ n := by
  induction n with
  | zero => simp [shrinkLoop]
  | succ n ih =>
    unfold shrinkLoop
    split
    · split
      · exact le_refl _
      · exact le_trans ih (Nat.le_succ n)
    · exact le_refl _

lemma shrinkLoop_ge (fits : Nat → Bool) (n : Nat) (hn : 8 ≤ n) :
    8 ≤ shrinkLoop fits n := by
  induction n with
  | zero => omega
  | succ n ih =>
    unfold shrinkLoop
    split
    · split
      · exact hn
      · exact ih (by omega)
    · exact hn

lemma shrinkLoop_fits_or_floor (fits : Nat → Bool) (n : Nat) (hn : 8 ≤ n) :
    shrinkLoop fits n = 8 ∨ fits (shrinkLoop fits n) = true := by
  induction n with
  | zero => omega
  | succ n ih =>
    unfold shrinkLoop
    split
    · rcases hf : fits (n + 1) with _ | _
      · simpa [hf] using ih (by omega)
      · simp [hf]
    · left
      omega

lemma shrinkLoop_maximal (fits : Nat → Bool) (n : Nat) :
    ∀ s, shrinkLoop fits n < s → s ≤ n → fits s = false := by
  induction n with
  | zero => omega
  | succ n ih =>
    intro s hlt hle
    unfold shrinkLoop at hlt
    by_cases h8 : n + 1 > 8
    · rw [if_pos h8] at hlt
      rcases hf : fits (n + 1) with _ | _
      · simp only [hf, Bool.false_eq_true, if_false] at hlt
        rcases Nat.lt_or_ge s (n + 1) with hs | hs
        · exact ih s hlt (by omega)
        · have hsn : s = n + 1 := by omega
          rw [hsn]
          exact hf
      · simp only [hf, if_true] at hlt
        omega
    · rw [if_neg h8] at hlt
      omega

lemma shrinkLoop_eq_floor (fits : Nat → Bool) (n : Nat) (hn : 8 ≤ n)
    (hnone : ∀ s, 8 < s → s ≤ n → fits s = false) : shrinkLoop fits n = 8 := by
  rcases shrinkLoop_fits_or_floor fits n hn with h | h
  · exact h
  · rcases Nat.lt_or_ge 8 (shrinkLoop fits n) with hgt | hge
    · have := hnone (shrinkLoop fits n) hgt (shrinkLoop_le fits n)
      rw [this] at h
      cases h
    · have := shrinkLoop_ge fits n hn
      omega

/-- C8: the shrink-to-fit computation of `_build_headline_banner` (a
total function here, so the loop terminates by construction). For
every banner height `h` whose 40% start size is at least the explicit
16px lower clamp, the computed headline size is at least the 8px
floor, at most 40% of `h`, fits unless it is the floor (at the floor
the text may overflow), no larger size up to 40% of `h` fits (so it is
the largest fitting integer ≤ 40% of `h` whenever one exists above the
floor), and if no size above the floor fits the result is exactly 8. -/
theorem headline_size_spec (fits : Nat → Bool) (h : Nat)
    (hstart : 16 ≤ h * 40 / 100) :
    8 ≤ headlineSize fits h
    ∧ headlineSize fits h ≤ h * 40 / 100
    ∧ (headlineSize fits h = 8 ∨ fits (headlineSize fits h) = true)
    ∧ (∀ s, headlineSize fits h < s → s ≤ h * 40 / 100 → fits s = false)
    ∧ ((∀ s, 8 < s → s ≤ h * 40 / 100 → fits s = false)
        → headlineSize fits h = 8) := by
  have hmax : hlStartSize h = h * 40 / 100 := max_eq_left hstart
  have hn : 8 ≤ h * 40 / 100 := by omega
  unfold headlineSize
  rw [hmax]
  exact ⟨shrinkLoop_ge fits _ hn, shrinkLoop_le fits _,
    shrinkLoop_fits_or_floor fits _ hn, shrinkLoop_maximal fits _,
    fun hnone => shrinkLoop_eq_floor fits _ hn hnone⟩

/-- C8 witness: height 90 (the program's headline banners) with a
font metric under which exactly the sizes up to 30 fit. -/
theorem headline_size_spec_witness :
    16 ≤ 90 * 40 / 100
    ∧ (8 ≤ headlineSize (fun s => s ≤ 30) 90
      ∧ headlineSize (fun s => s ≤ 30) 90 ≤ 90 * 40 / 100
      ∧ (headlineSize (fun s => s ≤ 30) 90 = 8
        ∨ (fun s : Nat => decide (s ≤ 30)) (headlineSize (fun s => s ≤ 30) 90)
            = true)
      ∧ (∀ s, headlineSize (fun s => s ≤ 30) 90 < s → s ≤ 90 * 40 / 100 →
          (fun s : Nat => decide (s ≤ 30)) s = false)
      ∧ ((∀ s, 8 < s → s ≤ 90 * 40 / 100 →
          (fun s : Nat => decide (s ≤ 30)) s = false)
            → headlineSize (fun s => s ≤ 30) 90 = 8)) :=
  ⟨by decide, headline_size_spec (fun s => s ≤ 30) 90 (by decide)⟩

end ILM

namespace ILM

/-! ## C1 — `generate_all` -/

/-- A trivial banner renderer for concrete instances. -/
def zeroRender : Nat → Nat → BannerCfg → String → Nat → Nat → Pix :=
  fun _ _ _ _ _ _ => ⟨0, 0, 0, 0⟩

lemma string_append_left_injective (s : String) :
    Function.Injective (fun p : String => p ++ s) := by
  intro a b hab
  simp only at hab
  have hd : (a ++ s).data = (b ++ s).data := by rw [hab]
  rw [String.data_append, String.data_append] at hd
  have := List.append_left_injective s.data hd
  exact congrArg String.mk this

lemma bannerName_decomp (w h : Nat) (lang abb : String) :
    bannerName w h lang abb
      = (toString w ++ "x" ++ toString h ++ "_" ++ lang ++ "_" ++ PLACEMENT
          ++ "_") ++ abb ++ ".jpg" := rfl

lemma generate_all_eq
    (rH rC : Nat → Nat → BannerCfg → String → Nat → Nat → Pix)
    (rs : Image → Nat → Nat → Nat → Nat → Pix) (cfg : BannerCfg) :
    generate_all rH rC rs cfg =
      [(bannerName 1300 90 "ENG" cfg.brand_abbrev,
          build_headline_banner rH 1300 90 cfg "ENG"),
       (bannerName 650 45 "ENG" cfg.brand_abbrev,
          imResize rs (build_headline_banner rH 1300 90 cfg "ENG") 650 45),
       (bannerName 1200 90 "ENG" cfg.brand_abbrev,
          build_headline_banner rH 1200 90 cfg "ENG"),
       (bannerName 600 45 "ENG" cfg.brand_abbrev,
          imResize rs (build_headline_banner rH 1200 90 cfg "ENG") 600 45),
       (bannerName 640 90 "ENG" cfg.brand_abbrev,
          build_compact_banner rC 640 90 cfg "ENG"),
       (bannerName 320 45 "ENG" cfg.brand_abbrev,
          imResize rs (build_compact_banner rC 640 90 cfg "ENG") 320 45),
       (bannerName 1300 90 "ESP" cfg.brand_abbrev,
          build_headline_banner rH 1300 90 cfg "ESP"),
       (bannerName 650 45 "ESP" cfg.brand_abbrev,
          imResize rs (build_headline_banner rH 1300 90 cfg "ESP") 650 45),
       (bannerName 1200 90 "ESP" cfg.brand_abbrev,
          build_headline_banner rH 1200 90 cfg "ESP"),
       (bannerName 600 45 "ESP" cfg.brand_abbrev,
          imResize rs (build_headline_banner rH 1200 90 cfg "ESP") 600 45),
       (bannerName 640 90 "ESP" cfg.brand_abbrev,
          build_compact_banner rC 640 90 cfg "ESP"),
       (bannerName 320 45 "ESP" cfg.brand_abbrev,
          imResize rs (build_compact_banner rC 640 90 cfg "ESP") 320 45)] := rfl

/-- C1 (amended): for every configuration and every font/resampling
behaviour, `generate_all` returns exactly 12 entries — for each of
{English, Spanish} × {three sizes}, one full-size and one half-size
raster (6 × 2) — every filename is unique, and each full-size entry's
width is exactly double its paired half-size entry's width. -/
theorem generate_all_spec
    (rH rC : Nat → Nat → BannerCfg → String → Nat → Nat → Pix)
    (rs : Image → Nat → Nat → Nat → Nat → Pix) (cfg : BannerCfg) :
    (generate_all rH rC rs cfg).length = 12
    ∧ ((generate_all rH rC rs cfg).map Prod.fst).Nodup
    ∧ (∀ k, k < 6 →
        ((generate_all rH rC rs cfg).get? (2 * k)).map (fun e => e.2.width)
          = ((generate_all rH rC rs cfg).get? (2 * k + 1)).map
              (fun e => 2 * e.2.width)) := by
  refine ⟨rfl, ?_, ?_⟩
  · rw [generate_all_eq]
    have hmap :
        ([(bannerName 1300 90 "ENG" cfg.brand_abbrev,
            build_headline_banner rH 1300 90 cfg "ENG"),
          (bannerName 650 45 "ENG" cfg.brand_abbrev,
            imResize rs (build_headline_banner rH 1300 90 cfg "ENG") 650 45),
          (bannerName 1200 90 "ENG" cfg.brand_abbrev,
            build_headline_banner rH 1200 90 cfg "ENG"),
          (bannerName 600 45 "ENG" cfg.brand_abbrev,
            imResize rs (build_headline_banner rH 1200 90 cfg "ENG") 600 45),
          (bannerName 640 90 "ENG" cfg.brand_abbrev,
            build_compact_banner rC 640 90 cfg "ENG"),
          (bannerName 320 45 "ENG" cfg.brand_abbrev,
            imResize rs (build_compact_banner rC 640 90 cfg "ENG") 320 45),
          (bannerName 1300 90 "ESP" cfg.brand_abbrev,
            build_headline_banner rH 1300 90 cfg "ESP"),
          (bannerName 650 45 "ESP" cfg.brand_abbrev,
            imResize rs (build_headline_banner rH 1300 90 cfg "ESP") 650 45),
          (bannerName 1200 90 "ESP" cfg.brand_abbrev,
            build_headline_banner rH 1200 90 cfg "ESP"),
          (bannerName 600 45 "ESP" cfg.brand_abbrev,
            imResize rs (build_headline_banner rH 1200 90 cfg "ESP") 600 45),
          (bannerName 640 90 "ESP" cfg.brand_abbrev,
            build_compact_banner rC 640 90 cfg "ESP"),
          (bannerName 320 45 "ESP" cfg.brand_abbrev,
            imResize rs (build_compact_banner rC 640 90 cfg "ESP") 320 45)].map
            Prod.fst)
        = ([toString (1300 : Nat) ++ "x" ++ toString (90 : Nat) ++ "_" ++ "ENG"
              ++ "_" ++ PLACEMENT ++ "_",
            toString (650 : Nat) ++ "x" ++ toString (45 : Nat) ++ "_" ++ "ENG"
              ++ "_" ++ PLACEMENT ++ "_",
            toString (1200 : Nat) ++ "x" ++ toString (90 : Nat) ++ "_" ++ "ENG"
              ++ "_" ++ PLACEMENT ++ "_",
            toString (600 : Nat) ++ "x" ++ toString (45 : Nat) ++ "_" ++ "ENG"
              ++ "_" ++ PLACEMENT ++ "_",
            toString (640 : Nat) ++ "x" ++ toString (90 : Nat) ++ "_" ++ "ENG"
              ++ "_" ++ PLACEMENT ++ "_",
            toString (320 : Nat) ++ "x" ++ toString (45 : Nat) ++ "_" ++ "ENG"
              ++ "_" ++ PLACEMENT ++ "_",
            toString (1300 : Nat) ++ "x" ++ toString (90 : Nat) ++ "_" ++ "ESP"
              ++ "_" ++ PLACEMENT ++ "_",
            toString (650 : Nat) ++ "x" ++ toString (45 : Nat) ++ "_" ++ "ESP"
              ++ "_" ++ PLACEMENT ++ "_",
            toString (1200 : Nat) ++ "x" ++ toString (90 : Nat) ++ "_" ++ "ESP"
              ++ "_" ++ PLACEMENT ++ "_",
            toString (600 : Nat) ++ "x" ++ toString (45 : Nat) ++ "_" ++ "ESP"
              ++ "_" ++ PLACEMENT ++ "_",
            toString (640 : Nat) ++ "x" ++ toString (90 : Nat) ++ "_" ++ "ESP"
              ++ "_" ++ PLACEMENT ++ "_",
            toString (320 : Nat) ++ "x" ++ toString (45 : Nat) ++ "_" ++ "ESP"
              ++ "_" ++ PLACEMENT ++ "_"].map
            (fun p => (p ++ cfg.brand_abbrev) ++ ".jpg")) := rfl
    rw [hmap]
    apply List.Nodup.map
    · exact (string_append_left_injective ".jpg").comp
        (string_append_left_injective cfg.brand_abbrev)
    · decide
  · intro k hk
    rw [generate_all_eq]
    interval_cases k <;> rfl

/-- The banner configuration used in concrete instances. -/
def cfg0 : BannerCfg :=
  ⟨"Brand", "BR", tinyImage, tinyImage, "Headline", "Titular", "#d9f69e"⟩

/-- C1 counterexample: at a concrete valid configuration,
`generate_all` returns 12 entries, not the claimed 24. -/
theorem generate_all_count_counterexample :
    (generate_all zeroRender zeroRender zeroResample cfg0).length = 12
    ∧ (generate_all zeroRender zeroRender zeroResample cfg0).length ≠ 24 := by
  have h : (generate_all zeroRender zeroRender zeroResample cfg0).length = 12 :=
    rfl
  exact ⟨h, by omega⟩

end ILM

namespace ILM

/-! ## C5 — `_beauty_individual` annotation -/

/-- The C5 scenario product. -/
def beautyProd : Product :=
  ⟨some "B00TEST", some "Brand", some "Name",
   some "Smells amazing and lasts all day", tinyImage⟩

/-- C5 (amended): for every product with a truthy copy, the
`@AmazonBeauty` individual layout draws the annotation — twice, once
at the measuring origin and once centred — as exactly the first 30
characters of the copy. -/
theorem beauty_individual_copy30 (hw : String → Nat → Nat)
    (resample : Image → Nat → Nat → Nat → Nat → Pix) (p : Product)
    (hc : copyTruthy p = true) :
    annotationTexts (beauty_individual hw resample p)
      = [⟨((p.copy.getD "").data.take 30)⟩,
         ⟨((p.copy.getD "").data.take 30)⟩] := by
  unfold beauty_individual annotationTexts
  simp [hc, List.filterMap_cons, List.filterMap_append]

/-- C5 witness: the scenario copy string, truncated to its 30-char
prefix `"Smells amazing and lasts all d"`. -/
theorem beauty_individual_copy30_witness :
    copyTruthy beautyProd = true
    ∧ annotationTexts (beauty_individual (fun _ _ => 0) zeroResample beautyProd)
        = ["Smells amazing and lasts all d", "Smells amazing and lasts all d"] :=
  ⟨by decide,
   (beauty_individual_copy30 (fun _ _ => 0) zeroResample beautyProd
     (by decide)).trans (by decide)⟩

/-- C5 counterexample: the annotation is the 30-character prefix
`"Smells amazing and lasts all d"`, not the claimed 29-character
string `"Smells amazing and lasts all "`. -/
theorem beauty_annotation_counterexample :
    annotationTexts (beauty_individual (fun _ _ => 0) zeroResample beautyProd)
      = ["Smells amazing and lasts all d", "Smells amazing and lasts all d"]
    ∧ ("Smells amazing and lasts all d" : String)
        ≠ "Smells amazing and lasts all " := by
  constructor
  · decide
  · decide

end ILM

namespace ILM

/-! ## C2 — `generate_franchise_frames` counts and sequence -/

lemma safeChannel_ca : safeChannel "@Amazon.ca" = "Amazon_ca" := by decide

lemma exists_prefix_append (p a b : String) (h : ∃ r, a = p ++ r) :
    ∃ r, a ++ b = p ++ r := by
  obtain ⟨r, hr⟩ := h
  exact ⟨r ++ b, by rw [hr, String.append_assoc]⟩

/-- C2: for every product list (including `[]`) and theme,
`generate_franchise_frames` yields `len(products) + 2` frames on each
of the four non-`@Amazon.ca` channels — one collage, one individual
per product in input order, the duplicate collage last — and
`2 × (len(products) + 2)` frames on `@Amazon.ca`: the same English
shape followed by a French set of the same shape whose paths all live
under the `_FR`-suffixed folder. -/
theorem generate_franchise_frames_spec (ps : List Product) (th : String) :
    (∀ ch ∈ (["@AmazonHome", "@AmazonBeauty", "@AmazonFashion",
        "@Amazon"] : List String),
      ∃ l, generate_franchise_frames ch ps th = some l
        ∧ l.length = ps.length + 2
        ∧ (l.map Prod.snd).head? = some (Frame.collage ch ps th "en" 0)
        ∧ (l.map Prod.snd).getLast? = some (Frame.collage ch ps th "en" 0)
        ∧ ((l.map Prod.snd).drop 1).take ps.length
            = ps.enum.map (fun ip => Frame.individual ch ip.2 (ip.1 + 1) "en"
                (if ch = "@Amazon" ∨ ch = "@Amazon.ca" then ip.1 % 6 else 0)))
    ∧ (∃ l, generate_franchise_frames "@Amazon.ca" ps th = some l
        ∧ l.length = 2 * (ps.length + 2)
        ∧ (l.map Prod.snd).head? = some (Frame.collage "@Amazon.ca" ps th "en" 0)
        ∧ ((l.map Prod.snd).take (ps.length + 2)).getLast?
            = some (Frame.collage "@Amazon.ca" ps th "en" 0)
        ∧ ((l.map Prod.snd).drop 1).take ps.length
            = ps.enum.map (fun ip =>
                Frame.individual "@Amazon.ca" ip.2 (ip.1 + 1) "en" (ip.1 % 6))
        ∧ ((l.map Prod.snd).drop (ps.length + 2)).head?
            = some (Frame.collage "@Amazon.ca" ps th "fr" 0)
        ∧ (l.map Prod.snd).getLast?
            = some (Frame.collage "@Amazon.ca" ps th "fr" 0)
        ∧ ((l.map Prod.snd).drop (ps.length + 3)).take ps.length
            = ps.enum.map (fun ip =>
                Frame.individual "@Amazon.ca" ip.2 (ip.1 + 1) "fr" (ip.1 % 6))
        ∧ (∀ e ∈ l.drop (ps.length + 2),
            ∃ rest, e.1 = "Amazon_ca_FR/" ++ rest)) := by
  constructor
  · intro ch hch
    simp only [List.mem_cons, List.not_mem_nil, or_false] at hch
    rcases hch with rfl | rfl | rfl | rfl
    · refine ⟨_, rfl, ?_, ?_, ?_, ?_⟩ <;>
        simp only [if_neg (show ¬ ("@AmazonHome" : String) = "@Amazon.ca" by
          decide), List.append_nil]
      · simp [List.length_append]
        try omega
      · simp
      · simp only [List.map_append, List.map_cons, List.map_nil]
        rw [List.getLast?_concat]
      · simp only [List.map_append, List.map_cons, List.map_nil,
          List.singleton_append, List.cons_append, List.drop_succ_cons,
          List.drop_zero]
        rw [List.take_left' (by simp)]
        simp only [List.map_map]
        rfl
    · refine ⟨_, rfl, ?_, ?_, ?_, ?_⟩ <;>
        simp only [if_neg (show ¬ ("@AmazonBeauty" : String) = "@Amazon.ca" by
          decide), List.append_nil]
      · simp [List.length_append]
        try omega
      · simp
      · simp only [List.map_append, List.map_cons, List.map_nil]
        rw [List.getLast?_concat]
      · simp only [List.map_append, List.map_cons, List.map_nil,
          List.singleton_append, List.cons_append, List.drop_succ_cons,
          List.drop_zero]
        rw [List.take_left' (by simp)]
        simp only [List.map_map]
        rfl
    · refine ⟨_, rfl, ?_, ?_, ?_, ?_⟩ <;>
        simp only [if_neg (show ¬ ("@AmazonFashion" : String) = "@Amazon.ca" by
          decide), List.append_nil]
      · simp [List.length_append]
        try omega
      · simp
      · simp only [List.map_append, List.map_cons, List.map_nil]
        rw [List.getLast?_concat]
      · simp only [List.map_append, List.map_cons, List.map_nil,
          List.singleton_append, List.cons_append, List.drop_succ_cons,
          List.drop_zero]
        rw [List.take_left' (by simp)]
        simp only [List.map_map]
        rfl
    · refine ⟨_, rfl, ?_, ?_, ?_, ?_⟩ <;>
        simp only [if_neg (show ¬ ("@Amazon" : String) = "@Amazon.ca" by
          decide), List.append_nil]
      · simp [List.length_append]
        try omega
      · simp
      · simp only [List.map_append, List.map_cons, List.map_nil]
        rw [List.getLast?_concat]
      · simp only [List.map_append, List.map_cons, List.map_nil,
          List.singleton_append, List.cons_append, List.drop_succ_cons,
          List.drop_zero]
        rw [List.take_left' (by simp)]
        simp only [List.map_map]
        rfl
  · refine ⟨_, rfl, ?_, ?_, ?_, ?_, ?_, ?_, ?_, ?_⟩ <;>
      simp only [if_pos (Eq.refl ("@Amazon.ca" : String)),
        if_pos (Or.inr (Eq.refl ("@Amazon.ca" : String)) :
          ("@Amazon.ca" : String) = "@Amazon"
            ∨ ("@Amazon.ca" : String) = "@Amazon.ca"), if_true]
    · simp [List.length_append]
      try omega
    · simp
    · rw [List.map_append, List.take_left' (by simp [List.length_append])]
      simp only [List.map_append, List.map_cons, List.map_nil]
      rw [List.getLast?_concat]
    · rw [List.map_append]
      simp only [List.map_append, List.map_cons, List.map_nil,
        List.singleton_append, List.cons_append, List.drop_succ_cons,
        List.drop_zero]
      rw [List.append_assoc, List.take_left' (by simp)]
      simp only [List.map_map]
      rfl
    · rw [List.map_append, List.drop_left' (by simp [List.length_append])]
      simp
    · rw [List.map_append, List.getLast?_append]
      simp only [List.map_append, List.map_cons, List.map_nil]
      rw [List.getLast?_concat]
      rfl
    · rw [List.map_append, show ps.length + 3 = ps.length + 2 + 1 from rfl,
        ← List.drop_drop, List.drop_left' (by simp [List.length_append])]
      simp only [List.map_append, List.map_cons, List.map_nil,
        List.singleton_append, List.cons_append, List.drop_succ_cons,
        List.drop_zero]
      rw [List.take_left' (by simp)]
      simp only [List.map_map]
      rfl
    · rw [List.drop_left' (by simp [List.length_append])]
      intro e he
      simp only [List.mem_append, List.mem_cons, List.not_mem_nil, or_false,
        List.mem_map, List.cons_append, List.nil_append,
        List.singleton_append] at he
      rcases he with rfl | ⟨ip, hip, rfl⟩ | rfl
      · refine ⟨"Frame_01_Collage.png", ?_⟩
        show safeChannel "@Amazon.ca" ++ "_FR/Frame_01_Collage.png"
          = "Amazon_ca_FR/" ++ "Frame_01_Collage.png"
        decide
      · exact exists_prefix_append _ _ _ (exists_prefix_append _ _ _
          (exists_prefix_append _ _ _ (exists_prefix_append _ _ _
            ⟨"Frame_", by decide⟩)))
      · exact exists_prefix_append _ _ _ (exists_prefix_append _ _ _
          ⟨"Frame_", by decide⟩)

end ILM

namespace ILM

/-- C2 witness: the `@AmazonHome` franchise over a single product. -/
theorem generate_franchise_frames_spec_witness :
    ∃ l, generate_franchise_frames "@AmazonHome" [beautyProd] "Just Dropped"
          = some l
      ∧ l.length = [beautyProd].length + 2
      ∧ (l.map Prod.snd).head?
          = some (Frame.collage "@AmazonHome" [beautyProd] "Just Dropped" "en" 0)
      ∧ (l.map Prod.snd).getLast?
          = some (Frame.collage "@AmazonHome" [beautyProd] "Just Dropped" "en" 0)
      ∧ ((l.map Prod.snd).drop 1).take [beautyProd].length
          = [beautyProd].enum.map (fun ip =>
              Frame.individual "@AmazonHome" ip.2 (ip.1 + 1) "en"
                (if "@AmazonHome" = "@Amazon" ∨ "@AmazonHome" = "@Amazon.ca"
                 then ip.1 % 6 else 0)) :=
  (generate_franchise_frames_spec [beautyProd] "Just Dropped").1 "@AmazonHome"
    (by decide)

end ILM

namespace ILM

/-! ## C10 — `generate_all_franchises` skip behaviour -/

/-- C10: `generate_all_franchises` silently skips every franchise-dict
key that is not a known channel — its output over any dict equals its
output over the dict restricted to known channels, and it never
raises — while calling `generate_franchise_frames` directly with an
unknown channel fails (`CHANNEL_BUILDERS[channel]` raises `KeyError`,
modelled as `none`); on known channels `generate_franchise_frames`
always succeeds, and over a dict of known channels the output is
exactly the concatenation of the per-channel results in iteration
order. -/
theorem generate_all_franchises_spec (fd : List (String × List Product))
    (tn : List (String × String)) :
    generate_all_franchises fd tn
      = generate_all_franchises (fd.filter fun cp => cp.1 ∈ CHANNEL_KEYS) tn
    ∧ (∀ ch ps th, ch ∉ CHANNEL_KEYS →
        generate_franchise_frames ch ps th = none)
    ∧ (∀ ch ps th, ch ∈ CHANNEL_KEYS →
        ∃ l, generate_franchise_frames ch ps th = some l)
    ∧ ((∀ cp ∈ fd, cp.1 ∈ CHANNEL_KEYS) →
        generate_all_franchises fd tn
          = fd.flatMap fun cp =>
              (generate_franchise_frames cp.1 cp.2
                ((tn.lookup cp.1).getD "Just Dropped")).getD []) := by
  refine ⟨?_, ?_, ?_, ?_⟩
  · induction fd with
    | nil => rfl
    | cons head tail ih =>
      unfold generate_all_franchises
      rw [List.filter_cons]
      by_cases h : head.1 ∈ CHANNEL_KEYS
      · rw [if_pos (by simpa using h)]
        simp only [List.flatMap_cons]
        unfold generate_all_franchises at ih
        rw [ih]
      · rw [if_neg (by simpa using h)]
        simp only [List.flatMap_cons]
        rw [if_neg h]
        unfold generate_all_franchises at ih
        rw [List.nil_append, ih]
  · intro ch ps th h
    unfold generate_franchise_frames
    rw [if_neg h]
  · intro ch ps th h
    unfold generate_franchise_frames
    rw [if_pos h]
    exact ⟨_, rfl⟩
  · intro hall
    induction fd with
    | nil => rfl
    | cons head tail ih =>
      have hh : head.1 ∈ CHANNEL_KEYS := hall head (by simp)
      simp only [generate_all_franchises, List.flatMap_cons, if_pos hh]
      exact congrArg _ (ih fun cp hcp => hall cp (by simp [hcp]))

/-- C10 witness: a dict with one known and one unknown key. -/
theorem generate_all_franchises_spec_witness :
    generate_all_franchises
        [("@AmazonHome", []), ("@Bogus", [beautyProd])] []
      = generate_all_franchises
          (([("@AmazonHome", []), ("@Bogus", [beautyProd])] :
              List (String × List Product)).filter
            fun cp => cp.1 ∈ CHANNEL_KEYS) []
    ∧ generate_franchise_frames "@Bogus" [beautyProd] "Just Dropped" = none
    ∧ (∃ l, generate_franchise_frames "@Amazon" [] "Just Dropped" = some l)
    ∧ generate_all_franchises [("@AmazonHome", [])] []
        = ([("@AmazonHome", [])] : List (String × List Product)).flatMap
            fun cp =>
              (generate_franchise_frames cp.1 cp.2
                (((List.lookup cp.1 ([] : List (String × String)))).getD
                  "Just Dropped")).getD [] := by
  have h1 := (generate_all_franchises_spec
    [("@AmazonHome", []), ("@Bogus", [beautyProd])] []).1
  have h2 := (generate_all_franchises_spec [] []).2.1 "@Bogus" [beautyProd]
    "Just Dropped" (by decide)
  have h3 := (generate_all_franchises_spec [] []).2.2.1 "@Amazon" []
    "Just Dropped" (by decide)
  have h4 := (generate_all_franchises_spec [("@AmazonHome", [])] []).2.2.2
    (by intro cp hcp; simp at hcp; subst hcp; decide)
  exact ⟨h1, h2, h3, h4⟩

end ILM

namespace ILM

/-! ## C6 — `trim_transparent` idempotence -/

lemma Image.ext' {a b : Image} (hw : a.width = b.width) (hh : a.height = b.height)
    (hp : ∀ x y, a.pix x y = b.pix x y) : a = b := by
  cases a
  cases b
  simp only [Image.mk.injEq] at hw hh ⊢
  exact ⟨hw, hh, funext fun x => funext fun y => hp x y⟩

lemma findFirst_eq_none {p : Nat → Bool} : ∀ {n : Nat}, findFirst p n = none →
    ∀ k, k < n → p k = false := by
  intro n
  induction n with
  | zero => intro _ k hk; omega
  | succ n ih =>
    intro h k hk
    unfold findFirst at h
    rcases hf : findFirst p n with _ | m
    · rw [hf] at h
      rcases Nat.lt_or_ge k n with h1 | h1
      · exact ih hf k h1
      · have hkn : k = n := by omega
        subst hkn
        by_cases hp : p k = true
        · rw [if_pos hp] at h
          cases h
        · rw [Bool.not_eq_true] at hp
          exact hp
    · rw [hf] at h
      cases h

lemma findFirst_eq_some {p : Nat → Bool} : ∀ {n m : Nat},
    findFirst p n = some m → p m = true ∧ m < n ∧ ∀ k, k < m → p k = false := by
  intro n
  induction n with
  | zero => intro m h; cases h
  | succ n ih =>
    intro m h
    unfold findFirst at h
    rcases hf : findFirst p n with _ | m'
    · rw [hf] at h
      by_cases hp : p n = true
      · rw [if_pos hp] at h
        injection h with h
        subst h
        exact ⟨hp, Nat.lt_succ_self _, findFirst_eq_none hf⟩
      · rw [if_neg hp] at h
        cases h
    · rw [hf] at h
      injection h with h
      subst h
      obtain ⟨h1, h2, h3⟩ := ih hf
      exact ⟨h1, by omega, h3⟩

lemma findLast_eq_some {p : Nat → Bool} : ∀ {n m : Nat},
    findLast p n = some m →
      p m = true ∧ m < n ∧ ∀ k, m < k → k < n → p k = false := by
  intro n
  induction n with
  | zero => intro m h; cases h
  | succ n ih =>
    intro m h
    unfold findLast at h
    by_cases hp : p n = true
    · rw [if_pos hp] at h
      injection h with h
      subst h
      exact ⟨hp, Nat.lt_succ_self _, fun k h1 h2 => by omega⟩
    · rw [if_neg hp] at h
      obtain ⟨h1, h2, h3⟩ := ih h
      refine ⟨h1, by omega, fun k hk1 hk2 => ?_⟩
      rcases Nat.lt_or_ge k n with hl | hl
      · exact h3 k hk1 hl
      · have hkn : k = n := by omega
        subst hkn
        rw [Bool.not_eq_true] at hp
        exact hp

lemma findFirst_of_zero {p : Nat → Bool} (hp : p 0 = true) :
    ∀ n, 0 < n → findFirst p n = some 0 := by
  intro n
  induction n with
  | zero => omega
  | succ n ih =>
    intro _
    unfold findFirst
    rcases Nat.eq_zero_or_pos n with rfl | hn
    · simp [findFirst, hp]
    · rw [ih hn]

lemma findLast_succ_of_true {p : Nat → Bool} {n : Nat} (hp : p n = true) :
    findLast p (n + 1) = some n := by
  unfold findLast
  rw [if_pos hp]

lemma contentAt_crop (img : Image) (l t r b x y : Nat) :
    contentAt (img.crop l t r b) x y = contentAt img (l + x) (t + y) := rfl

/-- The all-white 100×100 image of the C6 scenario. -/
def whiteImage : Image := ⟨100, 100, fun _ _ => ⟨255, 255, 255, 255⟩⟩

end ILM

namespace ILM

lemma trim_of_crop (img : Image) {rmin rmax cmin cmax : Nat}
    (h1 : findFirst (rowHasContent img) img.height = some rmin)
    (h2 : findLast (rowHasContent img) img.height = some rmax)
    (h3 : findFirst (colHasContent img) img.width = some cmin)
    (h4 : findLast (colHasContent img) img.width = some cmax) :
    trim_transparent (img.crop cmin rmin (cmax + 1) (rmax + 1))
      = img.crop cmin rmin (cmax + 1) (rmax + 1) := by
  obtain ⟨hr1, hr1lt, hr1min⟩ := findFirst_eq_some h1
  obtain ⟨hr2, hr2lt, hr2max⟩ := findLast_eq_some h2
  obtain ⟨hc1, hc1lt, hc1min⟩ := findFirst_eq_some h3
  obtain ⟨hc2, hc2lt, hc2max⟩ := findLast_eq_some h4
  have hrle : rmin ≤ rmax := by
    by_contra hlt
    push_neg at hlt
    have hx := hr1min rmax hlt
    rw [hr2] at hx
    cases hx
  have hcle : cmin ≤ cmax := by
    by_contra hlt
    push_neg at hlt
    have hx := hc1min cmax hlt
    rw [hc2] at hx
    cases hx
  have hbnd : ∀ x y, x < img.width → y < img.height → contentAt img x y = true →
      cmin ≤ x ∧ x ≤ cmax ∧ rmin ≤ y ∧ y ≤ rmax := by
    intro x y hx hy hc
    have hcol : colHasContent img x = true := by
      simp only [colHasContent, List.any_eq_true, List.mem_range]
      exact ⟨y, hy, hc⟩
    have hrow : rowHasContent img y = true := by
      simp only [rowHasContent, List.any_eq_true, List.mem_range]
      exact ⟨x, hx, hc⟩
    refine ⟨?_, ?_, ?_, ?_⟩
    · by_contra hxc
      push_neg at hxc
      have hz := hc1min x hxc
      rw [hcol] at hz
      cases hz
    · by_contra hxc
      push_neg at hxc
      have hz := hc2max x hxc hx
      rw [hcol] at hz
      cases hz
    · by_contra hyc
      push_neg at hyc
      have hz := hr1min y hyc
      rw [hrow] at hz
      cases hz
    · by_contra hyc
      push_neg at hyc
      have hz := hr2max y hyc hy
      rw [hrow] at hz
      cases hz
  set img' := img.crop cmin rmin (cmax + 1) (rmax + 1) with himg'
  have hw' : img'.width = cmax + 1 - cmin := rfl
  have hh' : img'.height = rmax + 1 - rmin := rfl
  have hA : rowHasContent img' 0 = true := by
    have hsrc : rowHasContent img rmin = true := hr1
    simp only [rowHasContent, List.any_eq_true, List.mem_range] at hsrc ⊢
    obtain ⟨x, hx, hcx⟩ := hsrc
    obtain ⟨hb1, hb2, _, _⟩ := hbnd x rmin hx hr1lt hcx
    refine ⟨x - cmin, by rw [hw']; omega, ?_⟩
    rw [contentAt_crop]
    have hxx : cmin + (x - cmin) = x := by omega
    rw [hxx, Nat.add_zero]
    exact hcx
  have hB : rowHasContent img' (rmax - rmin) = true := by
    have hsrc : rowHasContent img rmax = true := hr2
    simp only [rowHasContent, List.any_eq_true, List.mem_range] at hsrc ⊢
    obtain ⟨x, hx, hcx⟩ := hsrc
    obtain ⟨hb1, hb2, _, _⟩ := hbnd x rmax hx hr2lt hcx
    refine ⟨x - cmin, by rw [hw']; omega, ?_⟩
    rw [contentAt_crop]
    have hxx : cmin + (x - cmin) = x := by omega
    have hyy : rmin + (rmax - rmin) = rmax := by omega
    rw [hxx, hyy]
    exact hcx
  have hC : colHasContent img' 0 = true := by
    have hsrc : colHasContent img cmin = true := hc1
    simp only [colHasContent, List.any_eq_true, List.mem_range] at hsrc ⊢
    obtain ⟨y, hy, hcy⟩ := hsrc
    obtain ⟨_, _, hb3, hb4⟩ := hbnd cmin y hc1lt hy hcy
    refine ⟨y - rmin, by rw [hh']; omega, ?_⟩
    rw [contentAt_crop]
    have hyy : rmin + (y - rmin) = y := by omega
    rw [hyy, Nat.add_zero]
    exact hcy
  have hD : colHasContent img' (cmax - cmin) = true := by
    have hsrc : colHasContent img cmax = true := hc2
    simp only [colHasContent, List.any_eq_true, List.mem_range] at hsrc ⊢
    obtain ⟨y, hy, hcy⟩ := hsrc
    obtain ⟨_, _, hb3, hb4⟩ := hbnd cmax y hc2lt hy hcy
    refine ⟨y - rmin, by rw [hh']; omega, ?_⟩
    rw [contentAt_crop]
    have hyy : rmin + (y - rmin) = y := by omega
    have hxx : cmin + (cmax - cmin) = cmax := by omega
    rw [hyy, hxx]
    exact hcy
  have hf1 : findFirst (rowHasContent img') img'.height = some 0 := by
    apply findFirst_of_zero hA
    rw [hh']
    omega
  have hf2 : findLast (rowHasContent img') img'.height = some (rmax - rmin) := by
    have hh2 : img'.height = (rmax - rmin) + 1 := by rw [hh']; omega
    rw [hh2]
    exact findLast_succ_of_true hB
  have hf3 : findFirst (colHasContent img') img'.width = some 0 := by
    apply findFirst_of_zero hC
    rw [hw']
    omega
  have hf4 : findLast (colHasContent img') img'.width = some (cmax - cmin) := by
    have hw2 : img'.width = (cmax - cmin) + 1 := by rw [hw']; omega
    rw [hw2]
    exact findLast_succ_of_true hD
  unfold trim_transparent
  rw [hf1, hf2, hf3, hf4]
  show img'.crop 0 0 ((cmax - cmin) + 1) ((rmax - rmin) + 1) = img'
  apply Image.ext'
  · show (cmax - cmin) + 1 - 0 = img'.width
    rw [hw']
    omega
  · show (rmax - rmin) + 1 - 0 = img'.height
    rw [hh']
    omega
  · intro x y
    show img'.pix (0 + x) (0 + y) = img'.pix x y
    rw [Nat.zero_add, Nat.zero_add]

set_option maxRecDepth 8000 in
/-- C6: `trim_transparent` is idempotent on every image, and returns
the all-white 100×100 image unchanged (no pixel satisfies the content
mask, so no crop happens and no error is raised — the function is
total). -/
theorem trim_transparent_spec :
    (∀ img, trim_transparent (trim_transparent img) = trim_transparent img)
    ∧ trim_transparent whiteImage = whiteImage := by
  constructor
  · intro img
    rcases h1 : findFirst (rowHasContent img) img.height with _ | rmin
    · have heq : trim_transparent img = img := by
        unfold trim_transparent
        rw [h1]
      rw [heq]
      exact heq
    · rcases h2 : findLast (rowHasContent img) img.height with _ | rmax
      · have heq : trim_transparent img = img := by
          unfold trim_transparent
          rw [h1, h2]
        rw [heq]
        exact heq
      · rcases h3 : findFirst (colHasContent img) img.width with _ | cmin
        · have heq : trim_transparent img = img := by
            unfold trim_transparent
            rw [h1, h2, h3]
          rw [heq]
          exact heq
        · rcases h4 : findLast (colHasContent img) img.width with _ | cmax
          · have heq : trim_transparent img = img := by
              unfold trim_transparent
              rw [h1, h2, h3, h4]
            rw [heq]
            exact heq
          · have heq : trim_transparent img
                = img.crop cmin rmin (cmax + 1) (rmax + 1) := by
              unfold trim_transparent
              rw [h1, h2, h3, h4]
            rw [heq, trim_of_crop img h1 h2 h3 h4]
  · rfl

end ILM
